import Mathlib

/-!
Shallow embedding of `portfolio_api_composition.py`: a script that fetches a
brokerage portfolio, classifies each position into four buckets by string
heuristics on ticker/name, and renders a sorted plain-text report.

Python `dict`s are modelled as insertion-ordered association lists where
assignment updates an existing key in place and appends a fresh key at the
end, matching CPython semantics.  Python strings are modelled as `String`
with the relevant operations (`startswith`, `in`, `len`, slicing) defined
over the underlying `List Char` (code points), matching Python's
code-point view of strings.
-/

namespace Portfolio

/-- One fetched position: `{'quantity': ..., 'name': ..., 'ticker': ...}`
(the value stored in the `positions` dict built by
`get_portfolio_composition`). -/
structure PosData where
  quantity : Int
  name : String
  ticker : String
deriving DecidableEq, Repr

/-- The `positions` dict: insertion-ordered map from FIGI to position data. -/
abbrev Positions := List (String × PosData)

/-- Python dict assignment `d[k] = v`: replace the value at an existing key
in place (keeping its slot), otherwise append the new pair at the end. -/
def dictInsert {β : Type} (k : String) (v : β) : List (String × β) → List (String × β)
  | [] => [(k, v)]
  | (k', v') :: rest => if k' = k then (k, v) :: rest else (k', v') :: dictInsert k v rest

/-- Python dict lookup `d[k]` / `k in d`, returning the first match. -/
def dictFind {β : Type} (k : String) : List (String × β) → Option β
  | [] => none
  | (k', v') :: rest => if k' = k then some v' else dictFind k rest

/-- The keys of an association-list dict, in order. -/
def dictKeys {β : Type} (d : List (String × β)) : List String := d.map Prod.fst

/-- Python `s.startswith(p)` over code points. -/
def pyStartsWith (s p : String) : Bool := p.data.isPrefixOf s.data

/-- Python substring test `sub in s`, over code points. -/
def listOccursIn (needle : List Char) : List Char → Bool
  | [] => needle.isEmpty
  | a :: as => needle.isPrefixOf (a :: as) || listOccursIn needle as

/-- Python `sub in s` on strings. -/
def pyContains (s sub : String) : Bool := listOccursIn sub.data s.data

/-- Python `len(s)` (number of code points). -/
def pyLen (s : String) : Nat := s.data.length

/-- Python slice `s[:n]` (first `n` code points). -/
def pyTake (n : Nat) (s : String) : String := String.mk (s.data.take n)

/-! ## Classifier (`categorize_assets`, lines 85-107) -/

/-- The four classification buckets of `categorize_assets`. -/
inductive Bucket
  | bonds
  | stocks
  | etfs
  | others
deriving DecidableEq, Repr

/-- A bucket dict: ticker ↦ `{'name': ..., 'quantity': ...}`. -/
abbrev BucketDict := List (String × String × Int)

/-- The four bucket dicts returned by `categorize_assets`. -/
structure Cats where
  bonds : BucketDict
  stocks : BucketDict
  etfs : BucketDict
  others : BucketDict
deriving DecidableEq, Repr

/-- Project a `Cats` value at a bucket label. -/
def Cats.get (c : Cats) : Bucket → BucketDict
  | .bonds => c.bonds
  | .stocks => c.stocks
  | .etfs => c.etfs
  | .others => c.others

/-- The branch taken by the `if`/`elif` chain of `categorize_assets` for one
position (lines 98-105), as a bucket label.  The conditions are verbatim:
1. `ticker.startswith('RU000') or 'ОФЗ' in name or 'БО' in name` → bonds;
2. `ticker.startswith('T') and ('ETF' in name or 'фонд' in name)` → etfs;
3. `len(ticker) <= 5 and not ticker.startswith('RU')` → stocks;
4. otherwise → others. -/
def bucketOf (d : PosData) : Bucket :=
  if pyStartsWith d.ticker "RU000" || pyContains d.name "ОФЗ" || pyContains d.name "БО" then
    .bonds
  else if pyStartsWith d.ticker "T" && (pyContains d.name "ETF" || pyContains d.name "фонд") then
    .etfs
  else if decide (pyLen d.ticker ≤ 5) && !(pyStartsWith d.ticker "RU") then
    .stocks
  else
    .others

/-- One iteration of the loop body of `categorize_assets`: classify the
position and assign `bucket[ticker] = {'name': name, 'quantity': quantity}`
in the corresponding dict. -/
def categorizeStep (c : Cats) (p : String × PosData) : Cats :=
  let d := p.2
  if pyStartsWith d.ticker "RU000" || pyContains d.name "ОФЗ" || pyContains d.name "БО" then
    { c with bonds := dictInsert d.ticker (d.name, d.quantity) c.bonds }
  else if pyStartsWith d.ticker "T" && (pyContains d.name "ETF" || pyContains d.name "фонд") then
    { c with etfs := dictInsert d.ticker (d.name, d.quantity) c.etfs }
  else if decide (pyLen d.ticker ≤ 5) && !(pyStartsWith d.ticker "RU") then
    { c with stocks := dictInsert d.ticker (d.name, d.quantity) c.stocks }
  else
    { c with others := dictInsert d.ticker (d.name, d.quantity) c.others }

/-- `categorize_assets(positions)` (lines 85-107): fold the loop body over
the positions dict, starting from four empty bucket dicts. -/
def categorize_assets (positions : Positions) : Cats :=
  positions.foldl categorizeStep ⟨[], [], [], []⟩

/-! ## Quantity formatting (`format_quantity`, lines 27-29) -/

/-- Split a list into groups of three counted from the right (the leftmost
group has one to three elements), as Python's `,` format specifier groups
decimal digits. -/
def chunk3 {α : Type} : List α → List (List α)
  | [] => []
  | [a] => [[a]]
  | [a, b] => [[a, b]]
  | a :: b :: c :: rest => [a, b, c] :: chunk3 rest

/-- Groups of three from the right of a list. -/
def rightGroups {α : Type} (l : List α) : List (List α) :=
  ((chunk3 l.reverse).map List.reverse).reverse

/-- Join groups with a single separator character. -/
def sepChunks (sep : Char) (gs : List (List Char)) : List Char :=
  List.intercalate [sep] gs

/-- The digit string of `f"{n:,}"` for a natural number: decimal digits
grouped in threes from the right, separated by commas. -/
def commaNat (n : Nat) : List Char := sepChunks ',' (rightGroups (Nat.toDigits 10 n))

/-- `f"{q:,}"` for an integer: a minus sign followed by the grouped digits
of the absolute value when negative. -/
def commaInt (q : Int) : List Char :=
  if q < 0 then '-' :: commaNat q.natAbs else commaNat q.toNat

/-- Python `s.replace(a, b)` for single-character pattern and replacement. -/
def replaceChar (a b : Char) (s : List Char) : List Char :=
  s.map (fun c => if c = a then b else c)

/-- `format_quantity(quantity)` (lines 27-29):
`f"{quantity:,}".replace(",", " ")`. -/
def format_quantity (q : Int) : String :=
  String.mk (replaceChar ',' ' ' (commaInt q))

/-! ## Reporter (`display_portfolio_composition`, lines 109-172) -/

/-- The held quantity stored in a bucket entry. -/
def entryQty (e : String × String × Int) : Int := e.2.2

/-- `sorted(bucket.items(), key=lambda x: x[1]['quantity'], reverse=True)`:
a stable sort placing larger quantities first.  Python's `sorted` is a
stable sort; with `reverse=True` an element `x` may precede `y` exactly
when `x`'s key is ≥ `y`'s, ties keeping the original (insertion) order,
which is `mergeSort` with the comparison below. -/
def sortBucket (b : BucketDict) : BucketDict :=
  b.mergeSort (fun x y => decide (entryQty y ≤ entryQty x))

/-- `f"${ticker}; {data['name']}; {format_quantity(data['quantity'])}"`. -/
def renderEntry (e : String × String × Int) : String :=
  "$" ++ e.1 ++ "; " ++ e.2.1 ++ "; " ++ format_quantity (entryQty e)

/-- `"-" * 80`. -/
def dashLine : String := String.mk (List.replicate 80 '-')

/-- `"=" * 80`. -/
def eqLine : String := String.mk (List.replicate 80 '=')

/-- The lines printed for one bucket (e.g. lines 124-130): nothing when the
bucket is empty, otherwise a blank line (the `\n` of the header), the
header, a dashed rule, then one line per holding in sorted order. -/
def bucketSection (header : String) (b : BucketDict) : List String :=
  if b.isEmpty then [] else "" :: header :: dashLine :: (sortBucket b).map renderEntry

/-- `sum(data['quantity'] for data in bucket.values())` (lines 162-165). -/
def totalQty (b : BucketDict) : Int := (b.map entryQty).sum

/-- Sum of the quantities of a positions dict. -/
def sumQty (l : Positions) : Int := (l.map (fun p => p.2.quantity)).sum

/-- `display_portfolio_composition(positions)` (lines 109-172), as the list
of printed lines.  `if not positions:` is Python falsiness of a dict
(empty or `None`; the `None` case is modelled at the caller). -/
def display_portfolio_composition (positions : Positions) : List String :=
  if positions.isEmpty then
    ["❌ Нет данных для отображения"]
  else
    let c := categorize_assets positions
    ["📊 СОСТАВ ПОРТФЕЛЯ ЧЕРЕЗ API", eqLine, "Формат: $тикет; название; количество", eqLine]
      ++ bucketSection "📊 ОБЛИГАЦИИ:" c.bonds
      ++ bucketSection "📈 АКЦИИ:" c.stocks
      ++ bucketSection "📊 ETF:" c.etfs
      ++ bucketSection "🔍 ПРОЧИЕ АКТИВЫ:" c.others
      ++ ["", eqLine]
      ++ ["📊 Облигаций: " ++ format_quantity (totalQty c.bonds),
          "📈 Акций: " ++ format_quantity (totalQty c.stocks),
          "📊 ETF: " ++ format_quantity (totalQty c.etfs),
          "🔍 Прочих: " ++ format_quantity (totalQty c.others),
          "🎯 Всего активов: " ++ toString positions.length,
          "🎯 Общее количество: " ++
            format_quantity (totalQty c.bonds + totalQty c.stocks +
              totalQty c.etfs + totalQty c.others)]

/-! ## Fetcher (`get_portfolio_composition`, lines 31-83) and `main` -/

/-- An account returned by `client.users.get_accounts()`: an id and a type
tag (`1` is the brokerage-account type the script selects). -/
structure Account where
  id : String
  type : Nat
deriving DecidableEq, Repr

/-- Instrument metadata returned by `client.instruments.get_instrument_by`. -/
structure Instrument where
  name : String
  ticker : String
deriving DecidableEq, Repr

/-- A raw position of `portfolio.positions`: a FIGI and the integer `units`
of its fixed-point quantity (the fractional part is unused by the code). -/
structure RawPosition where
  figi : String
  units : Int
deriving DecidableEq, Repr

/-- The remote service, as the outcomes of the three API calls the script
makes.  `Except.error ()` models the call raising an exception;
`instruments` returning `Except.ok none` models a response whose
`.instrument` field is empty (falsy). -/
structure Env where
  accounts : Except Unit (List Account)
  portfolio : String → Except Unit (List RawPosition)
  instruments : String → Except Unit (Option Instrument)

/-- The sentinel display name used when instrument lookup raises. -/
def unknownName : String := "Неизвестно"

/-- One iteration of the position loop (lines 52-76): skip records with
`units <= 0`; otherwise look the instrument up — on success with a present
instrument store its name/ticker, on success with an absent instrument the
`if instrument.instrument:` guard fails and nothing is stored, and on an
exception store the fallback (`'Неизвестно'`, `figi[:8]`). -/
def processPosition (instr : String → Except Unit (Option Instrument))
    (acc : Positions) (p : RawPosition) : Positions :=
  if p.units > 0 then
    match instr p.figi with
    | .ok (some i) => dictInsert p.figi ⟨p.units, i.name, i.ticker⟩ acc
    | .ok none => acc
    | .error _ => dictInsert p.figi ⟨p.units, unknownName, pyTake 8 p.figi⟩ acc
  else
    acc

/-- `get_portfolio_composition(client)` (lines 31-83).  Any exception from
the account listing or the portfolio retrieval is caught by the outer
`try`/`except` and yields `None`; a missing brokerage account also yields
`None`. -/
def get_portfolio_composition (env : Env) : Option Positions :=
  match env.accounts with
  | .error _ => none
  | .ok accounts =>
    match accounts.find? (fun a => a.type == 1) with
    | none => none
    | some broker =>
      match env.portfolio broker.id with
      | .error _ => none
      | .ok raw => some (raw.foldl (processPosition env.instruments) [])

/-- The observable outcome of `main` after a successful connection
(lines 190-196): either the fallback message (fetch returned `None` or an
empty dict — both falsy) or the rendered report. -/
inductive RunResult
  | noData
  | report (lines : List String)
deriving DecidableEq, Repr

/-- `positions = get_portfolio_composition(client); if positions: ... else: ...`
(lines 190-196). -/
def runMain (env : Env) : RunResult :=
  match get_portfolio_composition env with
  | none => .noData
  | some ps => if ps.isEmpty then .noData else .report (display_portfolio_composition ps)

/-- Rebuild a dict from a list of key/value pairs by repeated assignment,
as the loops of the script do. -/
def buildDict {β : Type} (m : List (String × β)) : List (String × β) :=
  m.foldl (fun a e => dictInsert e.1 e.2 a) []

/-- The bucket entry a position contributes:
`(ticker, (name, quantity))`. -/
def entryOf (p : String × PosData) : String × String × Int :=
  (p.2.ticker, p.2.name, p.2.quantity)

/-- Modelled from the spec: "quantity is rendered with a space as the
thousands-group separator" — the decimal digits grouped in threes from the
right, joined with a single space.  Used only to compare the code's
formatter against the spec's description. -/
def spaceGroupedSpec (n : Nat) : String :=
  String.mk (sepChunks ' ' (rightGroups (Nat.toDigits 10 n)))

/-- Two positions with distinct FIGIs but the same ticker, both classified
as stocks; the first is overwritten by the second in the stocks dict. -/
def cexTickerCollision : Positions :=
  [("f1", ⟨3, "Alpha", "ZZZ"⟩), ("f2", ⟨4, "Beta", "ZZZ"⟩)]

/-- A second ticker-collision input (quantities 5 and 7, both stocks). -/
def cexTickerCollision2 : Positions :=
  [("g1", ⟨5, "Gamma", "QQQ"⟩), ("g2", ⟨7, "Delta", "QQQ"⟩)]

/-- The spec's end-to-end scenario 2: one stock and one government bond. -/
def demoPositions : Positions :=
  [("f1", ⟨100, "Сбербанк", "SBER"⟩), ("f2", ⟨500, "ОФЗ 26238", "RU000A1B2C3"⟩)]

/-- An environment whose instrument lookup succeeds but carries no
instrument (`instrument.instrument` falsy), for one surviving position. -/
def envNoInstr : Env where
  accounts := .ok [⟨"acc-1", 1⟩]
  portfolio := fun _ => .ok [⟨"BBG000000001", 5⟩]
  instruments := fun _ => .ok none

/-- An environment whose account listing raises. -/
def envFetchFail : Env where
  accounts := .error ()
  portfolio := fun _ => .ok []
  instruments := fun _ => .ok none

/-- A healthy environment with one position resolving to SBER. -/
def envOk : Env where
  accounts := .ok [⟨"acc-1", 1⟩]
  portfolio := fun _ => .ok [⟨"BBG004730N88", 5⟩]
  instruments := fun _ => .ok (some ⟨"Сбербанк", "SBER"⟩)

/-! ## Association-list dictionary lemmas -/

theorem dictFind_dictInsert {β : Type} (k a : String) (v : β) (d : List (String × β)) :
    dictFind a (dictInsert k v d) = if k = a then some v else dictFind a d := by
  induction d with
  | nil => simp [dictInsert, dictFind]
  | cons e rest ih =>
    obtain ⟨k', v'⟩ := e
    by_cases hk : k' = k
    · subst hk
      simp only [dictInsert, if_pos rfl, dictFind]
      by_cases ha : k' = a <;> simp [ha]
    · have hk' : ¬ k = k' := fun h => hk h.symm
      simp only [dictInsert, if_neg hk, dictFind]
      by_cases ha : k' = a
      · subst ha
        simp [dictFind, ih, hk']
      · simp [ha, ih]

theorem dictKeys_dictInsert {β : Type} (k : String) (v : β) (d : List (String × β)) :
    dictKeys (dictInsert k v d) =
      if k ∈ dictKeys d then dictKeys d else dictKeys d ++ [k] := by
  induction d with
  | nil => simp [dictInsert, dictKeys]
  | cons e rest ih =>
    obtain ⟨k', v'⟩ := e
    by_cases hk : k' = k
    · subst hk
      simp [dictInsert, dictKeys]
    · have hk' : ¬ k = k' := fun h => hk h.symm
      simp only [dictInsert, if_neg hk, dictKeys, List.map_cons] at ih ⊢
      by_cases hmem : k ∈ List.map Prod.fst rest
      · simp [ih, hmem, hk']
      · simp [ih, hmem, hk']

theorem mem_dictKeys_dictInsert {β : Type} (k a : String) (v : β) (d : List (String × β)) :
    a ∈ dictKeys (dictInsert k v d) ↔ a = k ∨ a ∈ dictKeys d := by
  rw [dictKeys_dictInsert]
  split
  · rename_i h
    constructor
    · exact .inr
    · rintro (rfl | h') <;> [exact h; exact h']
  · simp [or_comm]

theorem nodup_dictKeys_dictInsert {β : Type} (k : String) (v : β) (d : List (String × β))
    (h : (dictKeys d).Nodup) : (dictKeys (dictInsert k v d)).Nodup := by
  rw [dictKeys_dictInsert]
  split
  · exact h
  · rename_i hk
    simp [List.nodup_append, h, hk]

theorem dictInsert_of_not_mem {β : Type} (k : String) (v : β) (d : List (String × β))
    (h : k ∉ dictKeys d) : dictInsert k v d = d ++ [(k, v)] := by
  induction d with
  | nil => simp [dictInsert]
  | cons e rest ih =>
    obtain ⟨k', v'⟩ := e
    simp only [dictKeys, List.map_cons, List.mem_cons, not_or] at h
    have hne : ¬ k' = k := fun hh => h.1 hh.symm
    simp only [dictInsert, if_neg hne, List.cons_append, List.cons.injEq, true_and]
    exact ih h.2

theorem mem_of_mem_dictInsert {β : Type} {k : String} {v : β} {d : List (String × β)}
    {e : String × β} : e ∈ dictInsert k v d → e = (k, v) ∨ e ∈ d := by
  induction d with
  | nil => intro h; simpa [dictInsert] using h
  | cons e' rest ih =>
    obtain ⟨k', v'⟩ := e'
    intro h
    by_cases hk : k' = k
    · subst hk
      simp [dictInsert] at h
      exact h.imp (fun h1 => h1) (fun h1 => List.mem_cons_of_mem _ h1)
    · simp only [dictInsert, if_neg hk, List.mem_cons] at h
      rcases h with h1 | h1
      · exact .inr (by simp [h1])
      · rcases ih h1 with h2 | h2
        · exact .inl h2
        · exact .inr (List.mem_cons_of_mem _ h2)

theorem nodup_dictKeys_buildDict_aux {β : Type} (m : List (String × β)) :
    ∀ acc : List (String × β), (dictKeys acc).Nodup →
      (dictKeys (m.foldl (fun a e => dictInsert e.1 e.2 a) acc)).Nodup := by
  induction m with
  | nil => intro acc h; simpa using h
  | cons e m ih =>
    intro acc h
    exact ih _ (nodup_dictKeys_dictInsert _ _ _ h)

theorem nodup_dictKeys_buildDict {β : Type} (m : List (String × β)) :
    (dictKeys (buildDict m)).Nodup :=
  nodup_dictKeys_buildDict_aux m [] (by simp [dictKeys])

theorem dictFind_foldl_dictInsert {β : Type} (a : String) (m : List (String × β)) :
    ∀ acc : List (String × β),
      dictFind a (m.foldl (fun d e => dictInsert e.1 e.2 d) acc) =
        Option.or ((m.filter (fun e => decide (e.1 = a))).getLast?.map Prod.snd)
          (dictFind a acc) := by
  induction m with
  | nil => intro acc; simp
  | cons e m ih =>
    intro acc
    rw [List.foldl_cons, ih, dictFind_dictInsert]
    by_cases he : e.1 = a
    · rw [List.filter_cons_of_pos (by simpa using he), if_pos he]
      cases hf : m.filter (fun e => decide (e.1 = a)) with
      | nil => simp
      | cons x xs =>
        rw [List.getLast?_cons_cons]
        cases hl : (x :: xs).getLast? with
        | none => exact absurd (List.getLast?_eq_none_iff.mp hl) (by simp)
        | some y => simp
    · rw [List.filter_cons_of_neg (by simpa using he), if_neg he]

theorem dictFind_buildDict {β : Type} (a : String) (m : List (String × β)) :
    dictFind a (buildDict m) =
      ((m.filter (fun e => decide (e.1 = a))).getLast?).map Prod.snd := by
  rw [buildDict, dictFind_foldl_dictInsert]
  simp [dictFind]

theorem foldl_dictInsert_of_nodup {β : Type} (m : List (String × β)) :
    ∀ acc : List (String × β), (m.map Prod.fst).Nodup →
      (∀ k ∈ m.map Prod.fst, k ∉ dictKeys acc) →
      m.foldl (fun d e => dictInsert e.1 e.2 d) acc = acc ++ m := by
  induction m with
  | nil => intro acc _ _; simp
  | cons e m ih =>
    intro acc hnd hdisj
    simp only [List.map_cons, List.nodup_cons] at hnd
    have he : e.1 ∉ dictKeys acc := hdisj e.1 (by simp)
    simp only [List.foldl_cons, dictInsert_of_not_mem e.1 e.2 acc he]
    rw [ih (acc ++ [e]) hnd.2]
    · simp
    · intro k hk
      simp only [dictKeys, List.map_append, List.mem_append, not_or]
      refine ⟨hdisj k (by simp [hk]), ?_⟩
      simp only [List.map_cons, List.map_nil, List.mem_singleton]
      intro hke
      exact hnd.1 (by rwa [hke] at hk)

theorem buildDict_of_nodup {β : Type} (m : List (String × β))
    (h : (m.map Prod.fst).Nodup) : buildDict m = m := by
  rw [buildDict, foldl_dictInsert_of_nodup m [] h (by simp [dictKeys])]
  simp

theorem mem_dictKeys_foldl_dictInsert {β : Type} (a : String) (m : List (String × β)) :
    ∀ acc : List (String × β),
      (a ∈ dictKeys (m.foldl (fun d e => dictInsert e.1 e.2 d) acc) ↔
        a ∈ m.map Prod.fst ∨ a ∈ dictKeys acc) := by
  induction m with
  | nil => intro acc; simp
  | cons e m ih =>
    intro acc
    rw [List.foldl_cons, ih, List.map_cons]
    rw [mem_dictKeys_dictInsert]
    constructor
    · rintro (h | h | h)
      · exact .inl (List.mem_cons_of_mem _ h)
      · exact .inl (by simp [h])
      · exact .inr h
    · rintro (h | h)
      · rcases List.mem_cons.mp h with h | h
        · exact .inr (.inl h)
        · exact .inl h
      · exact .inr (.inr h)

theorem mem_dictKeys_buildDict {β : Type} (a : String) (m : List (String × β)) :
    a ∈ dictKeys (buildDict m) ↔ a ∈ m.map Prod.fst := by
  rw [buildDict, mem_dictKeys_foldl_dictInsert]
  simp [dictKeys]

theorem filter_key_of_nodup {β : Type} (t : String) (d : List (String × β))
    (h : (dictKeys d).Nodup) :
    d.filter (fun e => decide (e.1 = t)) =
      match dictFind t d with
      | some v => [(t, v)]
      | none => [] := by
  induction d with
  | nil => simp [dictFind]
  | cons e rest ih =>
    simp only [dictKeys, List.map_cons, List.nodup_cons] at h
    by_cases he : e.1 = t
    · rw [List.filter_cons_of_pos (by simpa using he)]
      simp only [dictFind, if_pos he]
      have hrest : rest.filter (fun e => decide (e.1 = t)) = [] := by
        rw [List.filter_eq_nil_iff]
        intro x hx
        simp only [decide_eq_true_eq]
        intro hxt
        exact h.1 (by
          rw [he, ← hxt]
          exact List.mem_map_of_mem Prod.fst hx)
      rw [hrest]
      have : e = (t, e.2) := by
        rw [← he]
      rw [← this]
    · rw [List.filter_cons_of_neg (by simpa using he)]
      simp only [dictFind, if_neg he]
      exact ih h.2

/-! ## Classifier partition lemmas -/

theorem categorizeStep_get (c : Cats) (p : String × PosData) (b : Bucket) :
    (categorizeStep c p).get b =
      if bucketOf p.2 = b then
        dictInsert p.2.ticker (p.2.name, p.2.quantity) (c.get b)
      else c.get b := by
  by_cases h1 :
      (pyStartsWith p.2.ticker "RU000" || pyContains p.2.name "ОФЗ" ||
        pyContains p.2.name "БО") = true
  · simp only [categorizeStep, bucketOf, h1, if_true]
    cases b <;> simp [Cats.get]
  · by_cases h2 :
        (pyStartsWith p.2.ticker "T" &&
          (pyContains p.2.name "ETF" || pyContains p.2.name "фонд")) = true
    · simp only [categorizeStep, bucketOf, h1, h2, if_true, if_false]
      cases b <;> simp [Cats.get]
    · by_cases h3 :
          (decide (pyLen p.2.ticker ≤ 5) && !(pyStartsWith p.2.ticker "RU")) = true
      · simp only [categorizeStep, bucketOf, h1, h2, h3, if_true, if_false]
        cases b <;> simp [Cats.get]
      · simp only [categorizeStep, bucketOf, h1, h2, h3, if_false]
        cases b <;> simp [Cats.get]

theorem foldl_categorizeStep_get (l : Positions) (b : Bucket) :
    ∀ c : Cats, (l.foldl categorizeStep c).get b =
      ((l.filter (fun p => decide (bucketOf p.2 = b))).map entryOf).foldl
        (fun a e => dictInsert e.1 e.2 a) (c.get b) := by
  induction l with
  | nil => intro c; simp
  | cons p l ih =>
    intro c
    rw [List.foldl_cons, ih, categorizeStep_get]
    by_cases hb : bucketOf p.2 = b
    · rw [if_pos hb, List.filter_cons_of_pos (by simpa using hb)]
      rfl
    · rw [if_neg hb, List.filter_cons_of_neg (by simpa using hb)]

/-- `categorize_assets` is partition-then-rebuild: bucket `b` of the result
is the dict built from exactly the positions whose classification is `b`,
in input order. -/
theorem categorize_get (l : Positions) (b : Bucket) :
    (categorize_assets l).get b =
      buildDict ((l.filter (fun p => decide (bucketOf p.2 = b))).map entryOf) := by
  rw [categorize_assets, foldl_categorizeStep_get]
  cases b <;> rfl

/-! ## Sum lemmas -/

theorem totalQty_map_entryOf (m : Positions) :
    totalQty (m.map entryOf) = sumQty m := by
  simp [totalQty, sumQty, List.map_map, entryQty, entryOf, Function.comp_def]

theorem sumQty_cons (x : String × PosData) (m : Positions) :
    sumQty (x :: m) = x.2.quantity + sumQty m := by
  simp [sumQty]

theorem sumQty_bucket_partition (l : Positions) :
    sumQty (l.filter (fun p => decide (bucketOf p.2 = .bonds))) +
      sumQty (l.filter (fun p => decide (bucketOf p.2 = .stocks))) +
      sumQty (l.filter (fun p => decide (bucketOf p.2 = .etfs))) +
      sumQty (l.filter (fun p => decide (bucketOf p.2 = .others))) = sumQty l := by
  induction l with
  | nil => simp [sumQty]
  | cons p l ih =>
    cases hb : bucketOf p.2 with
    | bonds =>
      rw [List.filter_cons_of_pos (by simp [hb]),
        List.filter_cons_of_neg (by simp [hb]),
        List.filter_cons_of_neg (by simp [hb]),
        List.filter_cons_of_neg (by simp [hb]),
        sumQty_cons, sumQty_cons]
      omega
    | stocks =>
      rw [List.filter_cons_of_neg (by simp [hb]),
        List.filter_cons_of_pos (by simp [hb]),
        List.filter_cons_of_neg (by simp [hb]),
        List.filter_cons_of_neg (by simp [hb]),
        sumQty_cons, sumQty_cons]
      omega
    | etfs =>
      rw [List.filter_cons_of_neg (by simp [hb]),
        List.filter_cons_of_neg (by simp [hb]),
        List.filter_cons_of_pos (by simp [hb]),
        List.filter_cons_of_neg (by simp [hb]),
        sumQty_cons, sumQty_cons]
      omega
    | others =>
      rw [List.filter_cons_of_neg (by simp [hb]),
        List.filter_cons_of_neg (by simp [hb]),
        List.filter_cons_of_neg (by simp [hb]),
        List.filter_cons_of_pos (by simp [hb]),
        sumQty_cons, sumQty_cons]
      omega

theorem totalQty_filter_split (d : BucketDict) (q : String × String × Int → Bool) :
    totalQty d = totalQty (d.filter q) + totalQty (d.filter (fun e => !q e)) := by
  induction d with
  | nil => simp [totalQty]
  | cons e rest ih =>
    have h1 : totalQty (e :: rest) = entryQty e + totalQty rest := by simp [totalQty]
    by_cases hq : q e = true
    · rw [List.filter_cons_of_pos hq, List.filter_cons_of_neg (by simp [hq]), h1, ih]
      have h2 : totalQty (e :: rest.filter q) = entryQty e + totalQty (rest.filter q) := by
        simp [totalQty]
      rw [h2]
      ring
    · rw [List.filter_cons_of_neg (by simpa using hq),
        List.filter_cons_of_pos (by simp [hq]), h1, ih]
      have h2 : totalQty (e :: rest.filter (fun e => !q e)) =
          entryQty e + totalQty (rest.filter (fun e => !q e)) := by
        simp [totalQty]
      rw [h2]
      ring

/-! ## Formatter lemmas -/

theorem replaceChar_eq_self (a b : Char) (s : List Char) (h : ∀ c ∈ s, c ≠ a) :
    replaceChar a b s = s := by
  unfold replaceChar
  have h' : ∀ c ∈ s, (if c = a then b else c) = c := fun c hc => if_neg (h c hc)
  rw [List.map_congr_left h']
  exact List.map_id s

theorem map_intersperse {α β : Type} (f : α → β) (sep : α) :
    ∀ l : List α, (l.intersperse sep).map f = (l.map f).intersperse (f sep)
  | [] => rfl
  | [x] => rfl
  | x :: y :: tl => by
    rw [List.intersperse_cons_cons, List.map_cons, List.map_cons, List.map_cons,
      List.map_cons, List.intersperse_cons_cons, map_intersperse f sep (y :: tl),
      List.map_cons]

theorem replaceChar_sepChunks (gs : List (List Char))
    (h : ∀ g ∈ gs, ∀ c ∈ g, c ≠ ',') :
    replaceChar ',' ' ' (sepChunks ',' gs) = sepChunks ' ' gs := by
  show (List.intercalate [','] gs).map (fun c => if c = ',' then ' ' else c) =
    sepChunks ' ' gs
  unfold List.intercalate sepChunks List.intercalate
  rw [List.map_flatten, map_intersperse (List.map fun c => if c = ',' then ' ' else c) [','] gs]
  have h1 : ([','].map fun c => if c = ',' then ' ' else c) = [' '] := by simp
  rw [h1]
  have h2 : gs.map (List.map fun c => if c = ',' then ' ' else c) = gs := by
    have h3 : ∀ g ∈ gs, (List.map (fun c => if c = ',' then ' ' else c) g) = g :=
      fun g hg => replaceChar_eq_self ',' ' ' g (h g hg)
    rw [List.map_congr_left h3]
    exact List.map_id gs
  rw [h2]

theorem digitChar_ne_comma (n : Nat) : Nat.digitChar n ≠ ',' := by
  rcases Nat.lt_or_ge n 16 with h16 | h16
  · interval_cases n <;> decide
  · have hne : ∀ k : Nat, k < 16 → n ≠ k := fun k hk => by omega
    have h : Nat.digitChar n = '*' := by
      unfold Nat.digitChar
      rw [if_neg (hne 0 (by norm_num)), if_neg (hne 1 (by norm_num)),
        if_neg (hne 2 (by norm_num)), if_neg (hne 3 (by norm_num)),
        if_neg (hne 4 (by norm_num)), if_neg (hne 5 (by norm_num)),
        if_neg (hne 6 (by norm_num)), if_neg (hne 7 (by norm_num)),
        if_neg (hne 8 (by norm_num)), if_neg (hne 9 (by norm_num)),
        if_neg (hne 10 (by norm_num)), if_neg (hne 11 (by norm_num)),
        if_neg (hne 12 (by norm_num)), if_neg (hne 13 (by norm_num)),
        if_neg (hne 14 (by norm_num)), if_neg (hne 15 (by norm_num))]
    rw [h]
    decide

theorem toDigitsCore_ne_comma (b : Nat) :
    ∀ (fuel n : Nat) (ds : List Char), (∀ c ∈ ds, c ≠ ',') →
      ∀ c ∈ Nat.toDigitsCore b fuel n ds, c ≠ ','
  | 0, _, _, h => h
  | fuel+1, n, ds, h => by
    simp only [Nat.toDigitsCore]
    have hcons : ∀ c ∈ Nat.digitChar (n % b) :: ds, c ≠ ',' := by
      intro c hc
      rcases List.mem_cons.mp hc with rfl | hc'
      · exact digitChar_ne_comma _
      · exact h c hc'
    split
    · exact hcons
    · exact toDigitsCore_ne_comma b fuel (n / b) _ hcons

theorem toDigits_ne_comma (n : Nat) : ∀ c ∈ Nat.toDigits 10 n, c ≠ ',' :=
  toDigitsCore_ne_comma 10 (n + 1) n [] (by simp)

theorem mem_of_mem_chunk3 {α : Type} :
    ∀ (l g : List α), g ∈ chunk3 l → ∀ c ∈ g, c ∈ l
  | [], g, hg => by simp [chunk3] at hg
  | [a], g, hg => by
    simp only [chunk3, List.mem_singleton] at hg
    subst hg
    intro c hc
    simpa using hc
  | [a, b], g, hg => by
    simp only [chunk3, List.mem_singleton] at hg
    subst hg
    intro c hc
    simpa using hc
  | a :: b :: c' :: rest, g, hg => by
    simp only [chunk3, List.mem_cons] at hg
    rcases hg with rfl | hg
    · intro c hc
      simp only [List.mem_cons] at hc ⊢
      tauto
    · intro c hc
      have := mem_of_mem_chunk3 rest g hg c hc
      simp only [List.mem_cons]
      tauto

theorem mem_of_mem_rightGroups {α : Type} (l g : List α)
    (hg : g ∈ rightGroups l) : ∀ c ∈ g, c ∈ l := by
  unfold rightGroups at hg
  rw [List.mem_reverse, List.mem_map] at hg
  obtain ⟨g', hg', rfl⟩ := hg
  intro c hc
  rw [List.mem_reverse] at hc
  have := mem_of_mem_chunk3 _ _ hg' c hc
  simpa using this

/-! ## Fetcher lemmas -/

theorem foldl_processPosition_pos (instr : String → Except Unit (Option Instrument))
    (raw : List RawPosition) :
    ∀ acc : Positions, (∀ e ∈ acc, 0 < e.2.quantity) →
      ∀ e ∈ raw.foldl (processPosition instr) acc, 0 < e.2.quantity := by
  induction raw with
  | nil => intro acc h e he; exact h e he
  | cons p raw ih =>
    intro acc h e he
    refine ih _ ?_ e he
    intro e' he'
    unfold processPosition at he'
    split at he'
    · rename_i hu
      split at he'
      · rcases mem_of_mem_dictInsert he' with rfl | hmem
        · exact hu
        · exact h e' hmem
      · exact h e' he'
      · rcases mem_of_mem_dictInsert he' with rfl | hmem
        · exact hu
        · exact h e' hmem
    · exact h e' he'

theorem filter_key_map_entryOf (t : String) (m : Positions) :
    ((m.map entryOf).filter (fun e => decide (e.1 = t))) =
      (m.filter (fun p => decide (p.2.ticker = t))).map entryOf := by
  rw [List.filter_map]
  rfl

/-! ## Claims -/

/-- C1 (counterexample): the claim fails as stated.  In
`cexTickerCollision` two positions with distinct FIGIs share the ticker
"ZZZ" and are both classified as stocks; the dict assignment
`stocks[ticker] = ...` overwrites the first position's entry, so the first
position ("Alpha", quantity 3) appears in none of the four buckets — it is
dropped, contradicting "no position is dropped". -/
theorem classifier_drops_ticker_collision :
    ("f1", (⟨3, "Alpha", "ZZZ"⟩ : PosData)) ∈ cexTickerCollision ∧
    ¬ (("ZZZ", "Alpha", (3 : Int)) ∈ (categorize_assets cexTickerCollision).bonds ∨
       ("ZZZ", "Alpha", (3 : Int)) ∈ (categorize_assets cexTickerCollision).stocks ∨
       ("ZZZ", "Alpha", (3 : Int)) ∈ (categorize_assets cexTickerCollision).etfs ∨
       ("ZZZ", "Alpha", (3 : Int)) ∈ (categorize_assets cexTickerCollision).others) := by
  decide

/-- C1 (amended): when no two positions share a tickerSymbol, every
position appears — with its own name and quantity — in exactly one of the
four buckets of `categorize_assets`: the classification rule is total and
first-match-exclusive, and no entry is overwritten. -/
theorem classifier_total_exclusive (l : Positions)
    (ht : (l.map (fun p => p.2.ticker)).Nodup)
    (f : String) (d : PosData) (hm : (f, d) ∈ l) :
    ∃! b : Bucket, (d.ticker, d.name, d.quantity) ∈ ((categorize_assets l).get b) := by
  have hkeys : ∀ b : Bucket,
      (categorize_assets l).get b =
        (l.filter (fun p => decide (bucketOf p.2 = b))).map entryOf := by
    intro b
    have hnd : ((((l.filter (fun p => decide (bucketOf p.2 = b))).map entryOf)).map
        Prod.fst).Nodup := by
      rw [List.map_map]
      exact List.Nodup.sublist ((List.filter_sublist l).map _) ht
    rw [categorize_get, buildDict_of_nodup _ hnd]
  refine ⟨bucketOf d, ?_, ?_⟩
  · show (d.ticker, d.name, d.quantity) ∈ ((categorize_assets l).get (bucketOf d))
    rw [hkeys]
    exact List.mem_map.mpr ⟨(f, d), List.mem_filter.mpr ⟨hm, by simp⟩, rfl⟩
  · intro b' hb0
    have hb' : (d.ticker, d.name, d.quantity) ∈ ((categorize_assets l).get b') := hb0
    rw [hkeys] at hb'
    obtain ⟨⟨f', d'⟩, hmem, heq⟩ := List.mem_map.mp hb'
    have hmem' := List.mem_filter.mp hmem
    have htick : d'.ticker = d.ticker := congrArg Prod.fst heq
    have hsame : (f', d') = (f, d) := List.inj_on_of_nodup_map ht hmem'.1 hm htick
    have hd : d' = d := congrArg Prod.snd hsame
    have hb'' : bucketOf d' = b' := by simpa using hmem'.2
    rw [← hb'', hd]

/-- C1 (witness): in the spec's scenario-2 position set (distinct tickers),
the SBER position lands in exactly one bucket. -/
theorem classifier_total_exclusive_witness :
    ∃! b : Bucket,
      ("SBER", "Сбербанк", (100 : Int)) ∈ ((categorize_assets demoPositions).get b) :=
  classifier_total_exclusive demoPositions (by decide) "f1"
    ⟨100, "Сбербанк", "SBER"⟩ (by decide)

/-- C2 (counterexample): the claim fails as stated.  In `envNoInstr` the
single raw position survives the quantity filter (units 5 > 0) and the
instrument lookup succeeds but carries no instrument; the
`if instrument.instrument:` guard then skips the assignment and no
exception is raised, so the position is silently dropped — the output is
an empty dict rather than an entry with the sentinel name and truncated
ticker. -/
theorem lookup_no_instrument_drops :
    envNoInstr.portfolio "acc-1" = .ok [⟨"BBG000000001", 5⟩] ∧
    envNoInstr.instruments "BBG000000001" = .ok none ∧
    (0 : Int) < 5 ∧
    get_portfolio_composition envNoInstr = some [] := by
  refine ⟨rfl, rfl, by decide, by decide⟩

/-- C2 (amended): a surviving position is retained with the sentinel name
"Неизвестно" and the first 8 characters of the FIGI as ticker exactly when
the per-instrument lookup raises an error; when the lookup succeeds but
returns no instrument, the position is dropped from the batch. -/
theorem lookup_fallback (instr : String → Except Unit (Option Instrument))
    (acc : Positions) (p : RawPosition) (hq : 0 < p.units) :
    (instr p.figi = .error () →
        processPosition instr acc p =
          dictInsert p.figi ⟨p.units, unknownName, pyTake 8 p.figi⟩ acc) ∧
    (instr p.figi = .ok none → processPosition instr acc p = acc) := by
  refine ⟨fun h => ?_, fun h => ?_⟩
  · unfold processPosition
    rw [if_pos hq, h]
  · unfold processPosition
    rw [if_pos hq, h]

/-- C2 (witness): a position whose lookup raises is kept with the sentinel
name and the 8-character ticker prefix of its FIGI. -/
theorem lookup_fallback_witness :
    (0 : Int) < 7 ∧
    processPosition (fun _ => .error ()) [] ⟨"BBG000XYZ123", 7⟩ =
      [("BBG000XYZ123", ⟨7, unknownName, pyTake 8 "BBG000XYZ123"⟩)] :=
  ⟨by decide,
    (lookup_fallback (fun _ => .error ()) [] ⟨"BBG000XYZ123", 7⟩ (by decide)).1 rfl⟩

/-- C3 (counterexample): the claim fails as stated.  In
`cexTickerCollision2` two positions (quantities 5 and 7) share a ticker
and a bucket; the bucket keeps only the later entry, so the stocks
subtotal is 7 while the sum of quantities of the positions classified as
stocks is 12, and the grand quantity total is 7 while the input sum is
12. -/
theorem totals_miss_overwritten_quantity :
    sumQty cexTickerCollision2 = 12 ∧
    totalQty ((categorize_assets cexTickerCollision2).get .stocks) = 7 ∧
    sumQty (cexTickerCollision2.filter (fun p => decide (bucketOf p.2 = .stocks))) = 12 ∧
    totalQty ((categorize_assets cexTickerCollision2).get .bonds) +
      totalQty ((categorize_assets cexTickerCollision2).get .stocks) +
      totalQty ((categorize_assets cexTickerCollision2).get .etfs) +
      totalQty ((categorize_assets cexTickerCollision2).get .others) = 7 := by
  decide

/-- C3 (amended): when no two positions share a tickerSymbol (and FIGIs,
the dict keys of the input, are distinct), each per-bucket subtotal of the
report equals the sum of heldQuantity of the positions classified into
that bucket, the grand quantity total equals the sum of heldQuantity over
the whole input, and the grand instrument count equals the number of
distinct instruments. -/
theorem report_totals_correct (l : Positions)
    (hfigi : (l.map Prod.fst).Nodup)
    (ht : (l.map (fun p => p.2.ticker)).Nodup) :
    (∀ b : Bucket, totalQty ((categorize_assets l).get b) =
        sumQty (l.filter (fun p => decide (bucketOf p.2 = b)))) ∧
    (totalQty ((categorize_assets l).get .bonds) +
      totalQty ((categorize_assets l).get .stocks) +
      totalQty ((categorize_assets l).get .etfs) +
      totalQty ((categorize_assets l).get .others) = sumQty l) ∧
    l.length = ((l.map Prod.fst).dedup).length := by
  have hbucket : ∀ b : Bucket, totalQty ((categorize_assets l).get b) =
      sumQty (l.filter (fun p => decide (bucketOf p.2 = b))) := by
    intro b
    have hnd : ((((l.filter (fun p => decide (bucketOf p.2 = b))).map entryOf)).map
        Prod.fst).Nodup := by
      rw [List.map_map]
      exact List.Nodup.sublist ((List.filter_sublist l).map _) ht
    rw [categorize_get, buildDict_of_nodup _ hnd, totalQty_map_entryOf]
  refine ⟨hbucket, ?_, ?_⟩
  · rw [hbucket, hbucket, hbucket, hbucket]
    exact sumQty_bucket_partition l
  · rw [List.Nodup.dedup hfigi, List.length_map]

/-- C3 (witness): the totals identities hold on the spec's scenario-2
position set. -/
theorem report_totals_correct_witness :
    totalQty ((categorize_assets demoPositions).get .bonds) =
      sumQty (demoPositions.filter (fun p => decide (bucketOf p.2 = .bonds))) ∧
    (totalQty ((categorize_assets demoPositions).get .bonds) +
      totalQty ((categorize_assets demoPositions).get .stocks) +
      totalQty ((categorize_assets demoPositions).get .etfs) +
      totalQty ((categorize_assets demoPositions).get .others) = sumQty demoPositions) ∧
    demoPositions.length = ((demoPositions.map Prod.fst).dedup).length := by
  have h := report_totals_correct demoPositions (by decide) (by decide)
  exact ⟨h.1 .bonds, h.2.1, h.2.2⟩

/-- C4: if two positions with distinct FIGIs have the same tickerSymbol
and classify into the same bucket, and no later position competes for that
ticker in that bucket, then that bucket holds exactly one entry for the
ticker — the later position's name and quantity — and the bucket subtotal
counts the later quantity plus only the other-ticker entries, so the
earlier position's quantity is absent from the bucket and its subtotal. -/
theorem later_position_overwrites (pre mid post : Positions)
    (f1 f2 : String) (d1 d2 : PosData)
    (hfigis : f1 ≠ f2)
    (ht : d1.ticker = d2.ticker)
    (hb : bucketOf d1 = bucketOf d2)
    (hlast : ∀ p ∈ mid ++ post,
      ¬(p.2.ticker = d2.ticker ∧ bucketOf p.2 = bucketOf d2)) :
    (((categorize_assets (pre ++ (f1, d1) :: mid ++ (f2, d2) :: post)).get
        (bucketOf d2)).filter (fun e => decide (e.1 = d2.ticker))) =
      [(d2.ticker, d2.name, d2.quantity)] ∧
    totalQty ((categorize_assets (pre ++ (f1, d1) :: mid ++ (f2, d2) :: post)).get
        (bucketOf d2)) =
      totalQty (((categorize_assets (pre ++ (f1, d1) :: mid ++ (f2, d2) :: post)).get
        (bucketOf d2)).filter (fun e => !decide (e.1 = d2.ticker))) + d2.quantity := by
  have hmid : mid.filter (fun p => decide (p.2.ticker = d2.ticker) &&
      decide (bucketOf p.2 = bucketOf d2)) = [] := by
    rw [List.filter_eq_nil_iff]
    intro p hp
    have hnp := hlast p (by simp [hp])
    simp only [Bool.and_eq_true, decide_eq_true_eq]
    rintro ⟨hp1, hp2⟩
    exact hnp ⟨hp1, hp2⟩
  have hpost : post.filter (fun p => decide (p.2.ticker = d2.ticker) &&
      decide (bucketOf p.2 = bucketOf d2)) = [] := by
    rw [List.filter_eq_nil_iff]
    intro p hp
    have hnp := hlast p (by simp [hp])
    simp only [Bool.and_eq_true, decide_eq_true_eq]
    rintro ⟨hp1, hp2⟩
    exact hnp ⟨hp1, hp2⟩
  have hfilter :
      (pre ++ (f1, d1) :: mid ++ (f2, d2) :: post).filter
          (fun p => decide (p.2.ticker = d2.ticker) &&
            decide (bucketOf p.2 = bucketOf d2)) =
        (pre.filter (fun p => decide (p.2.ticker = d2.ticker) &&
          decide (bucketOf p.2 = bucketOf d2))) ++ [(f1, d1), (f2, d2)] := by
    simp [List.filter_append, List.filter_cons, hmid, hpost, ht, hb]
  have hfind : dictFind d2.ticker
      ((categorize_assets (pre ++ (f1, d1) :: mid ++ (f2, d2) :: post)).get
        (bucketOf d2)) = some (d2.name, d2.quantity) := by
    rw [categorize_get, dictFind_buildDict, filter_key_map_entryOf,
      List.filter_filter, hfilter, List.getLast?_map, List.getLast?_append]
    simp [entryOf]
  have hkeys := nodup_dictKeys_buildDict
    (((pre ++ (f1, d1) :: mid ++ (f2, d2) :: post).filter
      (fun p => decide (bucketOf p.2 = bucketOf d2))).map entryOf)
  have h1 : (((categorize_assets (pre ++ (f1, d1) :: mid ++ (f2, d2) :: post)).get
      (bucketOf d2)).filter (fun e => decide (e.1 = d2.ticker))) =
      [(d2.ticker, d2.name, d2.quantity)] := by
    rw [categorize_get] at hfind ⊢
    rw [filter_key_of_nodup _ _ hkeys, hfind]
  refine ⟨h1, ?_⟩
  have h2 := totalQty_filter_split
    ((categorize_assets (pre ++ (f1, d1) :: mid ++ (f2, d2) :: post)).get (bucketOf d2))
    (fun e => decide (e.1 = d2.ticker))
  rw [h1] at h2
  have h3 : totalQty [(d2.ticker, d2.name, d2.quantity)] = d2.quantity := by
    simp [totalQty, entryQty]
  rw [h3] at h2
  omega

/-- C4 (witness): two same-ticker stock positions with distinct FIGIs; the
bucket keeps only the later entry ("New", 9) and its subtotal is 9. -/
theorem later_position_overwrites_witness :
    (((categorize_assets [("h1", ⟨3, "Old", "LKOH"⟩), ("h2", ⟨9, "New", "LKOH"⟩)]).get
        (bucketOf ⟨9, "New", "LKOH"⟩)).filter (fun e => decide (e.1 = "LKOH"))) =
      [("LKOH", "New", (9 : Int))] ∧
    totalQty ((categorize_assets
        [("h1", ⟨3, "Old", "LKOH"⟩), ("h2", ⟨9, "New", "LKOH"⟩)]).get
        (bucketOf ⟨9, "New", "LKOH"⟩)) =
      totalQty (((categorize_assets
        [("h1", ⟨3, "Old", "LKOH"⟩), ("h2", ⟨9, "New", "LKOH"⟩)]).get
        (bucketOf ⟨9, "New", "LKOH"⟩)).filter
          (fun e => !decide (e.1 = "LKOH"))) + 9 :=
  later_position_overwrites [] [] [] "h1" "h2" ⟨3, "Old", "LKOH"⟩ ⟨9, "New", "LKOH"⟩
    (by decide) rfl rfl (by simp)

/-- C5: any position whose tickerSymbol starts with the literal "RU000" is
classified as bonds by the first branch of the rule, whatever its
displayName or quantity, and its ticker consequently appears among the
keys of the bonds bucket of `categorize_assets` for any input containing
the position. -/
theorem ru000_always_bonds (d : PosData) (h : pyStartsWith d.ticker "RU000" = true) :
    bucketOf d = .bonds ∧
    ∀ (l : Positions) (f : String), (f, d) ∈ l →
      d.ticker ∈ dictKeys ((categorize_assets l).get .bonds) := by
  have hb : bucketOf d = .bonds := by
    unfold bucketOf
    rw [if_pos (by simp [h])]
  refine ⟨hb, ?_⟩
  intro l f hm
  rw [categorize_get, mem_dictKeys_buildDict, List.map_map]
  exact List.mem_map.mpr ⟨(f, d), List.mem_filter.mpr ⟨hm, by simp [hb]⟩, rfl⟩

/-- C5 (witness): a "RU000…" ticker with a name carrying no bond marker is
still classified as bonds and shows up among the bonds-bucket keys. -/
theorem ru000_always_bonds_witness :
    bucketOf ⟨1, "что угодно", "RU000A0JX0J2"⟩ = .bonds ∧
    "RU000A0JX0J2" ∈ dictKeys
      ((categorize_assets [("figi-1", ⟨1, "что угодно", "RU000A0JX0J2"⟩)]).get .bonds) := by
  have h := ru000_always_bonds ⟨1, "что угодно", "RU000A0JX0J2"⟩ (by decide)
  exact ⟨h.1, h.2 [("figi-1", ⟨1, "что угодно", "RU000A0JX0J2"⟩)] "figi-1" (by decide)⟩

/-- C6: whenever the Fetcher returns a positions dict, every entry in it
has heldQuantity > 0: records with non-positive integer units are never
inserted, so none survive into the output. -/
theorem fetcher_only_positive (env : Env) (ps : Positions)
    (h : get_portfolio_composition env = some ps) :
    ∀ f d, (f, d) ∈ ps → 0 < d.quantity := by
  unfold get_portfolio_composition at h
  split at h
  · exact absurd h (by simp)
  · split at h
    · exact absurd h (by simp)
    · split at h
      · exact absurd h (by simp)
      · injection h with h
        subst h
        intro f d hm
        exact foldl_processPosition_pos _ _ [] (by simp) (f, d) hm

/-- C6 (witness): the healthy environment yields one SBER position with
quantity 5 > 0. -/
theorem fetcher_only_positive_witness :
    get_portfolio_composition envOk = some [("BBG004730N88", ⟨5, "Сбербанк", "SBER"⟩)] ∧
    (0 : Int) < (PosData.mk 5 "Сбербанк" "SBER").quantity := by
  have h : get_portfolio_composition envOk =
      some [("BBG004730N88", ⟨5, "Сбербанк", "SBER"⟩)] := by decide
  exact ⟨h, fetcher_only_positive envOk _ h "BBG004730N88"
    ⟨5, "Сбербанк", "SBER"⟩ (by decide)⟩

/-- C7: the per-bucket sort used by the Reporter is a permutation of the
bucket, pairwise non-increasing in heldQuantity (hence non-increasing
across consecutive rendered lines), and stable: for every quantity value,
the entries carrying it appear in the same relative (insertion) order as
in the bucket dict.  The last conjunct records that the rendered bucket
lines are exactly the sorted entries. -/
theorem bucket_sort_sorted_stable (b : BucketDict) :
    List.Perm (sortBucket b) b ∧
    (sortBucket b).Pairwise (fun x y => entryQty y ≤ entryQty x) ∧
    (∀ q : Int, (sortBucket b).filter (fun e => decide (entryQty e = q)) =
      b.filter (fun e => decide (entryQty e = q))) ∧
    (∀ header : String, bucketSection header b =
      if b.isEmpty then [] else
        "" :: header :: dashLine :: (sortBucket b).map renderEntry) := by
  have htrans : ∀ (x y z : String × String × Int),
      decide (entryQty y ≤ entryQty x) = true →
      decide (entryQty z ≤ entryQty y) = true →
      decide (entryQty z ≤ entryQty x) = true := by
    intro x y z hxy hyz
    simp only [decide_eq_true_eq] at *
    exact le_trans hyz hxy
  have htotal : ∀ (x y : String × String × Int),
      (decide (entryQty y ≤ entryQty x) || decide (entryQty x ≤ entryQty y)) = true := by
    intro x y
    simp only [Bool.or_eq_true, decide_eq_true_eq]
    exact le_total (entryQty y) (entryQty x)
  refine ⟨List.mergeSort_perm b _, ?_, ?_, fun _ => rfl⟩
  · exact (List.sorted_mergeSort htrans htotal b).imp (fun hxy => by simpa using hxy)
  · intro q
    have hsub : List.Sublist (b.filter (fun e => decide (entryQty e = q))) b :=
      List.filter_sublist b
    have hpw : (b.filter (fun e => decide (entryQty e = q))).Pairwise
        (fun x y => decide (entryQty y ≤ entryQty x) = true) := by
      apply List.pairwise_of_forall_mem_list
      intro x hx y hy
      have hxq := (List.mem_filter.mp hx).2
      have hyq := (List.mem_filter.mp hy).2
      simp only [decide_eq_true_eq] at hxq hyq ⊢
      rw [hxq, hyq]
    have hstable := List.sublist_mergeSort htrans htotal hpw hsub
    have hff : (b.filter (fun e => decide (entryQty e = q))).filter
        (fun e => decide (entryQty e = q)) =
        b.filter (fun e => decide (entryQty e = q)) := by
      rw [List.filter_eq_self]
      intro a ha
      exact (List.mem_filter.mp ha).2
    have hsub2 := hstable.filter (fun e => decide (entryQty e = q))
    rw [hff] at hsub2
    have hperm : List.Perm ((sortBucket b).filter (fun e => decide (entryQty e = q)))
        (b.filter (fun e => decide (entryQty e = q))) :=
      (List.mergeSort_perm b _).filter _
    exact (hsub2.eq_of_length hperm.length_eq.symm).symm

/-- C8: the quantity formatter equals the spec's description — decimal
digits grouped in threes from the right with a single space as separator —
on every non-negative integer, and produces the four example renderings
0 → "0", 999 → "999", 1000 → "1 000", 1234567 → "1 234 567". -/
theorem format_quantity_groups :
    (∀ n : Nat, format_quantity (Int.ofNat n) = spaceGroupedSpec n) ∧
    format_quantity 0 = "0" ∧ format_quantity 999 = "999" ∧
    format_quantity 1000 = "1 000" ∧ format_quantity 1234567 = "1 234 567" := by
  refine ⟨?_, by decide, by decide, by decide, by decide⟩
  intro n
  show String.mk (replaceChar ',' ' ' (commaInt (Int.ofNat n))) = spaceGroupedSpec n
  have hneg : ¬ (Int.ofNat n < 0) := by
    rw [Int.not_lt]
    exact Int.ofNat_zero_le n
  unfold commaInt
  rw [if_neg hneg]
  show String.mk (replaceChar ',' ' ' (commaNat n)) = spaceGroupedSpec n
  unfold spaceGroupedSpec commaNat
  congr 1
  apply replaceChar_sepChunks
  intro g hg c hc
  exact toDigits_ne_comma n c (mem_of_mem_rightGroups _ g hg c hc)

/-- C9: when the account listing raises, or the portfolio retrieval raises
for whichever account is selected, the Fetcher returns no data (`None`)
and `main` takes the fallback branch — the Reporter is never invoked, so
no partial report is produced. -/
theorem fetch_failure_no_report (env : Env)
    (h : env.accounts = .error () ∨ ∀ id, env.portfolio id = .error ()) :
    get_portfolio_composition env = none ∧ runMain env = .noData := by
  have hnone : get_portfolio_composition env = none := by
    unfold get_portfolio_composition
    rcases h with h | h
    · rw [h]
    · cases ha : env.accounts with
      | error e => rfl
      | ok accounts =>
        cases hf : accounts.find? (fun a => a.type == 1) with
        | none => simp [hf]
        | some broker => simp [hf, h broker.id]
  refine ⟨hnone, ?_⟩
  unfold runMain
  rw [hnone]

/-- C9 (witness): an environment whose account listing raises produces no
data and the no-report outcome. -/
theorem fetch_failure_no_report_witness :
    get_portfolio_composition envFetchFail = none ∧ runMain envFetchFail = .noData :=
  fetch_failure_no_report envFetchFail (.inl rfl)

/-- C10: the Classifier and the Reporter are deterministic — they are pure
functions of the position set in this embedding, mirroring that the code
reads no state other than its argument — so two invocations on equal
position sets give identical buckets and an identical list of report
lines. -/
theorem classifier_reporter_deterministic (l₁ l₂ : Positions) (h : l₁ = l₂) :
    categorize_assets l₁ = categorize_assets l₂ ∧
    display_portfolio_composition l₁ = display_portfolio_composition l₂ := by
  subst h
  exact ⟨rfl, rfl⟩

/-- C10 (witness): repeated invocation on the scenario-2 position set. -/
theorem classifier_reporter_deterministic_witness :
    categorize_assets demoPositions = categorize_assets demoPositions ∧
    display_portfolio_composition demoPositions =
      display_portfolio_composition demoPositions :=
  classifier_reporter_deterministic demoPositions demoPositions rfl

end Portfolio
